import Mathlib

/-!
Verification of the cobra-mcp library: a shallow embedding of the command
discovery, tool-schema generation, tool-call dispatch and execution engine,
together with proofs of the specified properties.

The embedding follows the repository's sources: the command discovery and
in-process execution code of the design document (`traverseCommands`,
`GetHierarchicalTools`, `Execute`), the MCP server wrapper (`server.go`:
`NewServer`, `registerTools`, `handleToolCall`), and the e2e test suite.
Components of the core whose implementation file is not part of the
sources (the `ToolRegistry` dispatcher internals and the execution-mode
router) are modelled from the specification text; each such definition is
marked `Modelled from the spec:` in its doc comment.
-/

namespace CobraMCP

/-! ## Data model -/

/-- `FlagInfo` from the executor API: flag metadata extracted from a Cobra
command (name, shorthand, description, semantic type, required marker). -/
structure FlagInfo where
  name : String
  shorthand : String
  description : String
  ftype : String
  required : Bool
deriving Repr, DecidableEq

/-- Capability of a command's handler: `runOnly` corresponds to a Cobra
command with `Run:` and no `RunE:` (it can only terminate unilaterally,
e.g. via `os.Exit`); `runE` corresponds to `RunE:` (it can report an
error). -/
inductive HandlerKind where
  | runOnly
  | runE
deriving Repr, DecidableEq

/-- A node of the Cobra command tree: name, hidden marker, short/long
descriptions, usage string, flag set, handler capability and children in
registration order. -/
inductive Cmd where
  | node (name : String) (hidden : Bool) (short : String) (use : String)
      (long : String) (flags : List FlagInfo) (handler : HandlerKind)
      (children : List Cmd)

def Cmd.name : Cmd → String
  | .node n _ _ _ _ _ _ _ => n

def Cmd.hidden : Cmd → Bool
  | .node _ h _ _ _ _ _ _ => h

def Cmd.short : Cmd → String
  | .node _ _ s _ _ _ _ _ => s

def Cmd.use : Cmd → String
  | .node _ _ _ u _ _ _ _ => u

def Cmd.long : Cmd → String
  | .node _ _ _ _ l _ _ _ => l

def Cmd.flags : Cmd → List FlagInfo
  | .node _ _ _ _ _ f _ _ => f

def Cmd.handler : Cmd → HandlerKind
  | .node _ _ _ _ _ _ k _ => k

def Cmd.children : Cmd → List Cmd
  | .node _ _ _ _ _ _ _ cs => cs

/-- `CommandInfo` from the executor API: the descriptor emitted for one
discovered command. -/
structure CommandInfo where
  path : List String
  description : String
  use : String
  long : String
  flags : List FlagInfo
deriving Repr, DecidableEq

/-- The descriptor the traversal emits for a command reached at `path`. -/
def descriptorOf (c : Cmd) (path : List String) : CommandInfo :=
  { path := path ++ [c.name]
    description := c.short
    use := c.use
    long := c.long
    flags := c.flags }

/-! ## Command discovery (`traverseCommands`, design document §5.1) -/

mutual

/-- `traverseCommands` from the design document §5.1: skip a hidden
command (and with it its whole subtree), otherwise emit the current
command's descriptor and then traverse its children in registration order
with the extended path. The root special case of the Go code is handled in
`getAllCommands`. -/
def traverseCommands (c : Cmd) (path : List String) : List CommandInfo :=
  match c with
  | .node n hid sh us lg fl hk cs =>
    if hid then []
    else
      descriptorOf (.node n hid sh us lg fl hk cs) path ::
        traverseList cs (path ++ [n])

/-- Traversal of a child list in registration order. -/
def traverseList (cs : List Cmd) (path : List String) : List CommandInfo :=
  match cs with
  | [] => []
  | c :: rest => traverseCommands c path ++ traverseList rest path

end

/-- `GetAllCommands` from the design document §5.1. The Go code calls
`traverseCommands(rootCmd, [])`; its `cmd == e.rootCmd` branch drops the
root's own descriptor (whether or not the root is hidden) and traverses
the root's children with a fresh empty path prefix, which in an alias-free
tree is exactly `traverseList root.children []`. -/
def getAllCommands (root : Cmd) : List CommandInfo :=
  traverseList root.children []

/-! ## Action/resource classification (spec §4.3) -/

/-- One step of first-occurrence deduplication: append the element unless
it was already seen. -/
def dedupStep (acc : List String) (r : String) : List String :=
  if r ∈ acc then acc else acc ++ [r]

/-- Keep the first occurrence of each element of a list, dropping later
duplicates (the spec's "deduplicated, first-occurrence-ordered set"). -/
def dedupKeepFirst (l : List String) : List String :=
  l.foldl dedupStep []

/-- Modelled from the spec: the second-token extraction underlying
`getAvailableResources` of the ToolRegistry (`tools.go` is not among the
sources; only its declaration in the design document and its caller
`GetHierarchicalTools` are).  Spec §4.3: a command path contributes its
second token as a resource of the action that is its first token. -/
def secondTokenUnder (action : String) (info : CommandInfo) : Option String :=
  match info.path with
  | a :: r :: _ => if a = action then some r else none
  | _ => none

/-- Modelled from the spec: `getAvailableResources` (tools.go absent).
Spec §4.3: for an action, "resources" is the deduplicated,
first-occurrence-ordered set of second path tokens seen under it. -/
def getAvailableResources (action : String) (infos : List CommandInfo) : List String :=
  dedupKeepFirst (infos.filterMap (secondTokenUnder action))

/-- Modelled from the spec: the `resource` parameter enum of the
hierarchical tool for an action (`createHierarchicalTool`, tools.go
absent).  Spec §4.4: the hierarchical tool requires `resource` with
"enum = that action's resource set". -/
def resourceEnum (action : String) (root : Cmd) : List String :=
  getAvailableResources action (getAllCommands root)

/-- Modelled from the spec: `detectActions` (tools.go absent).  Auto mode
(spec §4.3): every first path token is an action, in first-occurrence
order (discovery order, which is stable). -/
def detectActions (infos : List CommandInfo) : List String :=
  dedupKeepFirst (infos.filterMap (fun i => i.path.head?))

/-- Modelled from the spec: `isStandaloneCommand` (tools.go absent).  Auto
mode (spec §4.3): a command whose path has length 1 is a candidate
standalone command. -/
def isStandaloneCommand (action : String) (infos : List CommandInfo) : Bool :=
  infos.any (fun i => i.path == [action])

/-! ## Tool schemas (spec §4.4) -/

/-- The parameter schema of one generated tool: the optional `resource`
enum (present exactly on hierarchical tools), the properties of the
`flags` object (flag name and description) and the list of flag names
marked required in the schema. -/
structure ToolSchema where
  resourceEnumValues : Option (List String)
  flagsProperties : List (String × String)
  flagsRequired : List String
deriving Repr, DecidableEq

/-- One step of the by-name union of flag descriptors: first-seen
description wins on a name collision (spec §4.4). -/
def addFlagProp (acc : List (String × String)) (f : FlagInfo) : List (String × String) :=
  if acc.any (fun p => p.1 == f.name) then acc else acc ++ [(f.name, f.description)]

/-- Modelled from the spec: the union, across all commands under an
action, of flag descriptors by name (spec §4.4). -/
def flagsUnion (fls : List FlagInfo) : List (String × String) :=
  fls.foldl addFlagProp []

/-- All flag descriptors of commands grouped under an action (first path
token equals the action). -/
def flagsUnderAction (action : String) (infos : List CommandInfo) : List FlagInfo :=
  (infos.filter (fun i => i.path.head? == some action)).flatMap CommandInfo.flags

/-- Modelled from the spec: `createHierarchicalTool` (tools.go absent).
Spec §4.4: a hierarchical tool requires `resource` (enum = the action's
resource set) and accepts a `flags` object whose properties are the
by-name union of the flags of all commands under the action; **no flag is
marked schema-required** — required-ness is enforced dynamically at
dispatch time against the resolved command. -/
def createHierarchicalTool (action : String) (root : Cmd) : ToolSchema :=
  { resourceEnumValues := some (resourceEnum action root)
    flagsProperties := flagsUnion (flagsUnderAction action (getAllCommands root))
    flagsRequired := [] }

/-- Modelled from the spec: `createStandaloneTool` (tools.go absent).
Spec §4.4: a standalone tool has no `resource` parameter and a flags
schema mapped 1:1 to the command; its required flags ARE schema-required. -/
def createStandaloneTool (info : CommandInfo) : ToolSchema :=
  { resourceEnumValues := none
    flagsProperties := info.flags.map (fun f => (f.name, f.description))
    flagsRequired := (info.flags.filter (fun f => f.required)).map FlagInfo.name }

/-- A tool definition as registered with the MCP server (`registerTools`,
server.go): name, description and input schema. -/
structure ToolDefinition where
  name : String
  description : String
  inputSchema : ToolSchema
deriving Repr, DecidableEq

/-- The standalone tool generated for a path-length-1 command, if any. -/
def standaloneToolFor (toolPrefix action : String) (infos : List CommandInfo) :
    Option ToolDefinition :=
  (infos.find? (fun i => i.path == [action])).map (fun i =>
    { name := toolPrefix ++ "_" ++ action
      description := i.description
      inputSchema := createStandaloneTool i })

/-- `GetHierarchicalTools` (design document §5.2): detect the actions,
then for each action emit a hierarchical tool when it has resources, or a
standalone tool when it is a standalone command; actions with neither are
dropped. -/
def getHierarchicalTools (toolPrefix : String) (root : Cmd) : List ToolDefinition :=
  (detectActions (getAllCommands root)).filterMap (fun action =>
    let resources := getAvailableResources action (getAllCommands root)
    if resources.isEmpty then
      if isStandaloneCommand action (getAllCommands root) then
        standaloneToolFor toolPrefix action (getAllCommands root)
      else none
    else
      some { name := toolPrefix ++ "_" ++ action
             description := "Hierarchical tool for action " ++ action
             inputSchema := createHierarchicalTool action root })

/-! ## Tool call dispatch: flag validation (spec §4.5) -/

/-- The validation errors accumulated by the dispatcher (spec §7):
a supplied flag name not in the resolved command's flag set, or a flag
marked required on the resolved command that was not supplied. -/
inductive DispatchError where
  | unknownFlag (name : String)
  | missingRequiredFlag (name : String)
deriving Repr, DecidableEq

def DispatchError.flagName : DispatchError → String
  | .unknownFlag n => n
  | .missingRequiredFlag n => n

/-- Byte-wise lexicographic comparison of code-point sequences: the order
Go's `sort.Strings` induces on flag names. -/
def lexLE : List Nat → List Nat → Bool
  | [], _ => true
  | _ :: _, [] => false
  | a :: as, b :: bs =>
    if a < b then true else if b < a then false else lexLE as bs

/-- The code points of a string. -/
def nameKey (s : String) : List Nat :=
  s.data.map Char.toNat

/-- Lexical order on accumulated validation errors, by flag name. -/
def errLE (a b : DispatchError) : Prop :=
  lexLE (nameKey a.flagName) (nameKey b.flagName) = true

instance : DecidableRel errLE := fun a b =>
  inferInstanceAs (Decidable (lexLE (nameKey a.flagName) (nameKey b.flagName) = true))

/-- Modelled from the spec: validation phase 1 (tools.go absent).  Spec
§4.5: every supplied flag name is checked against the resolved command's
flag set; any name not found accumulates an `UnknownFlag` error. -/
def unknownFlagErrors (cmdFlags : List FlagInfo)
    (supplied : List (String × String)) : List DispatchError :=
  ((supplied.map Prod.fst).filter
    (fun n => ! cmdFlags.any (fun f => f.name == n))).map DispatchError.unknownFlag

/-- Modelled from the spec: validation phase 2 (tools.go absent).  Spec
§4.5: every flag marked required on the resolved command is checked for
presence among the supplied flags; any missing one accumulates a
`MissingRequiredFlag` error. -/
def missingRequiredFlagErrors (cmdFlags : List FlagInfo)
    (supplied : List (String × String)) : List DispatchError :=
  (((cmdFlags.filter (fun f => f.required)).map FlagInfo.name).filter
    (fun n => ! supplied.any (fun s => s.1 == n))).map DispatchError.missingRequiredFlag

/-- Modelled from the spec: the accumulated validation errors, reported
deterministically ordered by flag name (lexical) — spec §4.5. -/
def validateFlags (cmdFlags : List FlagInfo)
    (supplied : List (String × String)) : List DispatchError :=
  List.insertionSort errLE
    (unknownFlagErrors cmdFlags supplied ++ missingRequiredFlagErrors cmdFlags supplied)

/-- Record of what an accepted tool call goes on to execute: the flag
values applied onto the resolved command's flag store and the command
path handed to the invoker (`Execute`, design document §5.4 steps 6–7). -/
structure Invocation where
  appliedFlags : List (String × String)
  commandPath : List String
deriving Repr, DecidableEq

/-- Modelled from the spec: the flag-validation gate of
`ToolRegistry.CallTool` (tools.go absent; only its declaration and its
caller `handleToolCall` are in the sources).  Spec §4.5: if any errors
accumulated, they are reported and **no execution occurs**; flag mutation
and invocation only proceed after full validation succeeds.  On success
the flag values are applied onto the resolved command and the handler is
invoked (design document `Execute`, §5.4: each supplied flag found by
`Lookup` is `Set`). -/
def dispatchFlags (cmdPath : List String) (cmdFlags : List FlagInfo)
    (supplied : List (String × String)) : Except (List DispatchError) Invocation :=
  let errs := validateFlags cmdFlags supplied
  if errs.isEmpty then
    .ok { appliedFlags := supplied.filter (fun s => cmdFlags.any (fun f => f.name == s.1))
          commandPath := cmdPath }
  else
    .error errs

/-! ## Execution router (spec §4.6, CHANGELOG 1.3.0) -/

/-- The three execution modes of the `CommandExecutor` (design document
§3.1). -/
inductive ExecutionMode where
  | inProcess
  | subProcess
  | auto
deriving Repr, DecidableEq

/-- Which invoker a call is routed to. -/
inductive Invoker where
  | direct
  | spawn
deriving Repr, DecidableEq

/-- Modelled from the spec: `shouldUseSubProcess` (executor.go absent;
only its declaration in the design document §3.1 API is in the sources).
Design document §3.1 / CHANGELOG 1.3.0: `in-process` never spawns,
`sub-process` always spawns, and `auto` spawns exactly for commands using
`Run:` with no `RunE:` (handlers that can only terminate unilaterally). -/
def shouldUseSubProcess (mode : ExecutionMode) (c : Cmd) : Bool :=
  match mode with
  | .inProcess => false
  | .subProcess => true
  | .auto => c.handler == .runOnly

/-- The execution router: `Execute` routes the call to `ExecuteSubProcess`
or to the in-process invoker according to `shouldUseSubProcess`
(CHANGELOG 1.3.0: "`Execute()` method now routes to sub-process or
in-process execution based on mode"). -/
def routeExecution (mode : ExecutionMode) (c : Cmd) : Invoker :=
  if shouldUseSubProcess mode c then .spawn else .direct

/-- Path lookup in the command tree (the `FindCommand` / `cobra.Find`
boundary): follow child names token by token. -/
def findCommand (c : Cmd) : List String → Option Cmd
  | [] => some c
  | n :: rest =>
    match c.children.find? (fun ch => ch.name == n) with
    | some ch => findCommand ch rest
    | none => none

/-! ## In-process output capture (design document §3.1, §5.4) -/

/-- A write performed by a handler during an in-process invocation:
through the structured output writer (`cmd.Println` / `cmd.Printf`,
captured via `rootCmd.SetOut` into the first buffer) or directly to the
intercepted standard-output stream (`fmt.Println` / `os.Stdout.Write`,
captured via the `os.Stdout` pipe into the second buffer). -/
inductive WriteEvent where
  | structured (s : String)
  | direct (s : String)
deriving Repr, DecidableEq

/-- Replay of a handler's write sequence into the two capture buffers
(structured buffer, intercepted-pipe buffer); each buffer accumulates its
chunks in arrival order. -/
def runWrites : List WriteEvent → List String × List String → List String × List String
  | [], bufs => bufs
  | .structured s :: rest, (a, b) => runWrites rest (a ++ [s], b)
  | .direct s :: rest, (a, b) => runWrites rest (a, b ++ [s])

/-- Modelled from the spec: the output merge of the in-process invoker
(executor.go absent; design document §3.1 "Merge captured direct stdout
writes with Cobra's output buffers", spec §4.6 step 6): final stdout is
the structured-writer buffer content followed by the intercepted-stream
buffer content, in that fixed order. -/
def capturedStdout (events : List WriteEvent) : String :=
  String.join ((runWrites events ([], [])).1 ++ (runWrites events ([], [])).2)

/-- `es` is an interleaving of the structured write sequence `ss` with the
direct write sequence `ds` (one fixed temporal arrival order of the two
streams). -/
inductive Interleaves : List String → List String → List WriteEvent → Prop
  | nil : Interleaves [] [] []
  | structured {ss ds es} (s : String) :
      Interleaves ss ds es → Interleaves (s :: ss) ds (.structured s :: es)
  | direct {ss ds es} (d : String) :
      Interleaves ss ds es → Interleaves ss (d :: ds) (.direct d :: es)

/-- `ExecuteResult` from the executor API. -/
structure ExecuteResult where
  stdout : String
  stderr : String
  exitCode : Int
  error : Option String
deriving Repr, DecidableEq

/-- The in-process result construction of `Execute` (design document
§5.4, step 8): stdout from the capture buffers, `ExitCode` hardcoded to
`0`, and the error returned by `ExecuteContext` (if any) stored in
`Error`. -/
def executeInProcess (events : List WriteEvent) (stderrBuf : String)
    (handlerErr : Option String) : ExecuteResult :=
  { stdout := capturedStdout events
    stderr := stderrBuf
    exitCode := 0
    error := handlerErr }

/-! ## MCP server wrapper (`server.go`) -/

/-- The result map returned by `ToolRegistry.CallTool` as consumed by
`handleToolCall` (server.go lines 139–155): an optional `isError` entry
and optional content items, each with an optional text field. -/
structure ToolCallRaw where
  isError : Option Bool
  content : Option (List (Option String))

/-- An MCP `CallToolResult` (server.go): error marker and text contents. -/
structure CallToolResult where
  isError : Bool
  content : List String
deriving Repr, DecidableEq

/-- Argument conversion of `handleToolCall` (server.go lines 115–126):
an absent/empty argument payload yields the empty argument map without
invoking the parser; otherwise the JSON parser runs. -/
def parsedArgs (parseArgs : String → Except String (List (String × String)))
    (rawArgs : Option String) : Except String (List (String × String)) :=
  match rawArgs with
  | none => .ok []
  | some raw => parseArgs raw

/-- Conversion of the `CallTool` outcome in `handleToolCall` (server.go
lines 128–155): a failure becomes an error result with the message as
text; a success map is converted field-wise, the `isError` entry
defaulting to false and missing or non-text content items being skipped. -/
def convertCallResult : Except String ToolCallRaw → CallToolResult × Option String
  | .error e => ({ isError := true, content := ["Error calling tool: " ++ e] }, none)
  | .ok raw =>
    ({ isError := raw.isError.getD false
       content := (raw.content.getD []).filterMap id }, none)

/-- `handleToolCall` (server.go lines 114–158), with the JSON argument
parser and the tool registry call abstracted as function parameters: a
parse failure and a tool-call failure are each converted into a
`CallToolResult` with `IsError` set and the message as text content; the
Go `error` return value (the second component) is `nil` on every path. -/
def handleToolCall (parseArgs : String → Except String (List (String × String)))
    (callTool : String → List (String × String) → Except String ToolCallRaw)
    (name : String) (rawArgs : Option String) : CallToolResult × Option String :=
  match parsedArgs parseArgs rawArgs with
  | .error e => ({ isError := true, content := ["Error parsing arguments: " ++ e] }, none)
  | .ok args => convertCallResult (callTool name args)

/-- The MCP server wrapper (server.go): the root command, the configured
tool prefix and the tool definitions registered once at construction. -/
structure Server where
  rootCmd : Cmd
  toolPrefix : String
  registeredTools : List ToolDefinition

/-- `NewServer` (server.go lines 22–55): build the registries and register
all tools from `GetHierarchicalTools` once, at construction. -/
def newServer (root : Cmd) (toolPrefix : String) : Server :=
  { rootCmd := root
    toolPrefix := toolPrefix
    registeredTools := getHierarchicalTools toolPrefix root }

/-- A protocol request served by the wrapper. -/
inductive Request where
  | listTools
  | callTool (name : String) (rawArgs : Option String)

/-- A protocol response. -/
inductive Response where
  | tools (defs : List ToolDefinition)
  | callResult (r : CallToolResult)

/-- Serving one request (server.go): `tools/list` answers from the
registered tool definitions; `tools/call` goes through `handleToolCall`.
Neither handler re-registers or rebuilds tools. -/
def handleRequest (parseArgs : String → Except String (List (String × String)))
    (callTool : String → List (String × String) → Except String ToolCallRaw)
    (s : Server) : Request → Response × Server
  | .listTools => (.tools s.registeredTools, s)
  | .callTool n a => (.callResult (handleToolCall parseArgs callTool n a).1, s)

/-- Serving a sequence of requests. -/
def runRequests (parseArgs : String → Except String (List (String × String)))
    (callTool : String → List (String × String) → Except String ToolCallRaw)
    (s : Server) : List Request → Server
  | [] => s
  | r :: rest => runRequests parseArgs callTool (handleRequest parseArgs callTool s r).2 rest

/-! ## The in-process call phases (`Execute`, design document §5.4) -/

/-- The phases of one in-process `Execute` call, in the order the code
performs them (design document §5.4): redirect the root command's output
writers and replace `os.Stderr` (steps 2–4), apply the supplied flag
values onto the shared command nodes (step 6), run the handler via
`ExecuteContext` (step 7, the InProcessRunning state), and finally the
deferred restores run. -/
inductive CallPhase where
  | notStarted
  | streamsRedirected
  | flagsApplied
  | running
  | restored
deriving Repr, DecidableEq

/-- Program order of one call: each step of `Execute` advances the call by
one phase.  The `Execute` code contains no lock, semaphore or other
synchronization between concurrent calls. -/
def nextPhase : CallPhase → CallPhase
  | .notStarted => .streamsRedirected
  | .streamsRedirected => .flagsApplied
  | .flagsApplied => .running
  | .running => .restored
  | .restored => .restored

/-- Interleaved execution of several concurrent `Execute` calls: at each
step any one unfinished call advances by one phase; no transition is
guarded by the phase of any other call, mirroring the absence of
synchronization in the code. -/
inductive ExecStep : List CallPhase → List CallPhase → Prop
  | advance (pre post : List CallPhase) (p : CallPhase) (h : p ≠ .restored) :
      ExecStep (pre ++ p :: post) (pre ++ nextPhase p :: post)

/-- Reachability in the interleaved call machine. -/
inductive ExecReachable : List CallPhase → List CallPhase → Prop
  | refl (s : List CallPhase) : ExecReachable s s
  | tail {s t u : List CallPhase} :
      ExecReachable s t → ExecStep t u → ExecReachable s u

/-- Number of calls currently in the `running` (InProcessRunning) phase. -/
def countRunning (s : List CallPhase) : Nat :=
  (s.filter (fun p => p == .running)).length

/-- The claimed mutual-exclusion invariant: no two calls simultaneously
in the InProcessRunning state. -/
def atMostOneInProcessRunning (s : List CallPhase) : Prop :=
  countRunning s ≤ 1

/-! ## Concrete command trees (from the repository's tests and examples) -/

/-- `version` standalone command of the e2e test CLI. -/
def versionCmd : Cmd :=
  .node "version" false "Print the version number" "version" "" [] .runOnly []

/-- Hidden command using `Run:` from the e2e warning tests. -/
def hiddenRunCmd : Cmd :=
  .node "hidden-run" true "Hidden command using Run:" "hidden-run" "" [] .runOnly []

/-- The required `name` flag of `delete resource` in the e2e test CLI. -/
def nameFlag : FlagInfo :=
  { name := "name", shorthand := "", description := "Resource name to delete (required)"
    ftype := "string", required := true }

def deleteResourceCmd : Cmd :=
  .node "resource" false "Delete a resource" "resource" "" [nameFlag] .runOnly []

def deleteCmd : Cmd :=
  .node "delete" false "Delete resources" "delete" "" [] .runE [deleteResourceCmd]

/-- The e2e test CLI root, restricted to `version`, a hidden command and
`delete resource`. -/
def testcliRoot : Cmd :=
  .node "testcli" false "Test CLI for output capture testing" "testcli" "" [] .runE
    [versionCmd, hiddenRunCmd, deleteCmd]

/-- `create cluster` of the advanced example CLI
(`examples/advanced/main.go`): three required string flags. -/
def advCreateCluster : Cmd :=
  .node "cluster" false "Create a cluster" "cluster"
    "Create a new cluster with the specified name, region, and size."
    [{ name := "name", shorthand := "", description := "The unique name of the cluster."
       ftype := "string", required := true },
     { name := "region", shorthand := "", description := "Use a specific AWS region."
       ftype := "string", required := true },
     { name := "size", shorthand := "", description := "Cluster size: Small, Medium, or Large (required)"
       ftype := "string", required := true }] .runOnly []

/-- The advanced example CLI root (`examples/advanced/main.go`),
restricted to `create cluster`, `list clusters` and `version`. -/
def advancedRoot : Cmd :=
  .node "advanced" false "Advanced example CLI with custom MCP configuration" "advanced" "" [] .runE
    [.node "create" false "Create resources" "create" "" [] .runE [advCreateCluster],
     .node "list" false "List resources" "list" "" [] .runE
       [.node "clusters" false "List clusters" "clusters" "" [] .runOnly []],
     .node "version" false "Print the version number" "version" "" [] .runOnly []]

/-- `run-command` of the e2e `Run:` detection test CLI: uses `Run:` (may
call `os.Exit`). -/
def runOnlyCmd : Cmd :=
  .node "run-command" false "Command using Run:" "run-command" "" [] .runOnly []

/-- `rune-command` of the e2e `Run:` detection test CLI: uses `RunE:`. -/
def runECmd : Cmd :=
  .node "rune-command" false "Command using RunE:" "rune-command" "" [] .runE []

/-- The e2e `Run:` detection test CLI root. -/
def runDetectRoot : Cmd :=
  .node "testcli" false "Test CLI for Run: detection" "testcli" "" [] .runE
    [runOnlyCmd, runECmd]

/-! ## Lemmas about discovery -/

theorem traverseCommands_hidden (c : Cmd) (path : List String)
    (h : c.hidden = true) : traverseCommands c path = [] := by
  cases c with
  | node n hid sh us lg fl hk cs =>
    simp only [Cmd.hidden] at h
    simp [traverseCommands, h]

theorem traverseCommands_visible (c : Cmd) (path : List String)
    (h : c.hidden = false) :
    traverseCommands c path =
      descriptorOf c path :: traverseList c.children (path ++ [c.name]) := by
  cases c with
  | node n hid sh us lg fl hk cs =>
    simp only [Cmd.hidden] at h
    simp [traverseCommands, h, Cmd.children, Cmd.name]

theorem traverseList_append (xs ys : List Cmd) (path : List String) :
    traverseList (xs ++ ys) path = traverseList xs path ++ traverseList ys path := by
  induction xs with
  | nil => simp [traverseList]
  | cons c rest ih => simp [traverseList, ih]

/-! ## Lemmas about first-occurrence deduplication -/

theorem mem_foldl_dedupStep (a : String) :
    ∀ (l acc : List String), a ∈ l.foldl dedupStep acc ↔ a ∈ acc ∨ a ∈ l
  | [], acc => by simp
  | x :: xs, acc => by
    rw [List.foldl_cons, mem_foldl_dedupStep a xs (dedupStep acc x)]
    unfold dedupStep
    by_cases hx : x ∈ acc
    · rw [if_pos hx]
      simp only [List.mem_cons]
      constructor
      · rintro (h | h)
        · exact Or.inl h
        · exact Or.inr (Or.inr h)
      · rintro (h | rfl | h)
        · exact Or.inl h
        · exact Or.inl hx
        · exact Or.inr h
    · rw [if_neg hx]
      simp only [List.mem_append, List.mem_singleton, List.mem_cons]
      tauto

theorem mem_dedupKeepFirst (a : String) (l : List String) :
    a ∈ dedupKeepFirst l ↔ a ∈ l := by
  rw [dedupKeepFirst, mem_foldl_dedupStep]
  simp

theorem nodup_foldl_dedupStep :
    ∀ (l acc : List String), acc.Nodup → (l.foldl dedupStep acc).Nodup
  | [], acc, h => by simpa using h
  | x :: xs, acc, h => by
    rw [List.foldl_cons]
    apply nodup_foldl_dedupStep xs
    unfold dedupStep
    by_cases hx : x ∈ acc
    · rwa [if_pos hx]
    · rw [if_neg hx]
      simp [List.nodup_append, h, hx]

theorem nodup_dedupKeepFirst (l : List String) : (dedupKeepFirst l).Nodup :=
  nodup_foldl_dedupStep l [] List.nodup_nil

theorem secondTokenUnder_eq_some (action r : String) (info : CommandInfo) :
    secondTokenUnder action info = some r ↔
      info.path.take 2 = [action, r] ∧ 2 ≤ info.path.length := by
  match h : info.path with
  | [] => simp [secondTokenUnder, h]
  | [a] => simp [secondTokenUnder, h]
  | a :: b :: rest =>
    have htake : (a :: b :: rest).take 2 = [a, b] := rfl
    have hlen : 2 ≤ (a :: b :: rest).length := by
      simp only [List.length_cons]
      omega
    simp only [secondTokenUnder, h, htake, hlen, and_true]
    constructor
    · intro hsome
      by_cases hab : a = action
      · rw [if_pos hab] at hsome
        injection hsome with hbr
        rw [hab, hbr]
      · rw [if_neg hab] at hsome
        exact absurd hsome (by simp)
    · intro heq
      simp only [List.cons.injEq, and_true] at heq
      obtain ⟨ha, hb⟩ := heq
      rw [if_pos ha, hb]

mutual

/-- Every descriptor emitted under path prefix `pre` has a path that
strictly extends `pre`. -/
theorem path_shape_cmd : ∀ (c : Cmd) (pre p : List String),
    p ∈ (traverseCommands c pre).map CommandInfo.path →
    ∃ q, q ≠ [] ∧ p = pre ++ q
  | .node n hid sh us lg fl hk cs, pre, p, hp => by
    cases hid with
    | true => simp [traverseCommands] at hp
    | false =>
      simp only [traverseCommands, Bool.false_eq_true, if_false, List.map_cons,
        List.mem_cons] at hp
      rcases hp with h | h
      · exact ⟨[n], by simp, by simp [h, descriptorOf, Cmd.name]⟩
      · obtain ⟨q, hq, rfl⟩ := path_shape_list cs (pre ++ [n]) p h
        exact ⟨n :: q, by simp, by simp⟩

theorem path_shape_list : ∀ (cs : List Cmd) (pre p : List String),
    p ∈ (traverseList cs pre).map CommandInfo.path →
    ∃ q, q ≠ [] ∧ p = pre ++ q
  | [], pre, p, hp => by simp [traverseList] at hp
  | c :: rest, pre, p, hp => by
    rw [show traverseList (c :: rest) pre =
      traverseCommands c pre ++ traverseList rest pre from rfl,
      List.map_append, List.mem_append] at hp
    rcases hp with h | h
    · exact path_shape_cmd c pre p h
    · exact path_shape_list rest pre p h

end

mutual

/-- The discovered path set is closed under truncation beyond the current
prefix: any truncation of an emitted path that still extends the prefix
is itself an emitted path. -/
theorem take_closed_cmd : ∀ (c : Cmd) (pre p : List String) (k : Nat),
    p ∈ (traverseCommands c pre).map CommandInfo.path →
    pre.length < k → k ≤ p.length →
    p.take k ∈ (traverseCommands c pre).map CommandInfo.path
  | .node n hid sh us lg fl hk cs, pre, p, k, hp, hlow, hhigh => by
    cases hid with
    | true => simp [traverseCommands] at hp
    | false =>
      have hdesc : (descriptorOf (Cmd.node n false sh us lg fl hk cs) pre).path
          = pre ++ [n] := by
        simp [descriptorOf, Cmd.name]
      simp only [traverseCommands, Bool.false_eq_true, if_false, List.map_cons,
        List.mem_cons] at hp ⊢
      rcases hp with h | h
      · subst h
        rw [hdesc] at hhigh ⊢
        have hlen : (pre ++ [n]).length = pre.length + 1 := by simp
        have hk : k = pre.length + 1 := by omega
        left
        rw [hk, ← hlen, List.take_length]
      · rcases Nat.lt_or_ge (pre.length + 1) k with hgt | hle
        · right
          exact take_closed_list cs (pre ++ [n]) p k h (by simpa using hgt) hhigh
        · have hk : k = pre.length + 1 := by omega
          obtain ⟨q, hq, rfl⟩ := path_shape_list cs (pre ++ [n]) p h
          left
          rw [hdesc, hk, show pre.length + 1 = (pre ++ [n]).length by simp,
            List.take_left]

theorem take_closed_list : ∀ (cs : List Cmd) (pre p : List String) (k : Nat),
    p ∈ (traverseList cs pre).map CommandInfo.path →
    pre.length < k → k ≤ p.length →
    p.take k ∈ (traverseList cs pre).map CommandInfo.path
  | [], pre, p, k, hp, _, _ => by simp [traverseList] at hp
  | c :: rest, pre, p, k, hp, hlow, hhigh => by
    rw [show traverseList (c :: rest) pre =
      traverseCommands c pre ++ traverseList rest pre from rfl,
      List.map_append, List.mem_append] at hp ⊢
    rcases hp with h | h
    · exact Or.inl (take_closed_cmd c pre p k h hlow hhigh)
    · exact Or.inr (take_closed_list rest pre p k h hlow hhigh)

end

/-! ## Claim C5: command discovery order -/

/-- Claim C5: command discovery is a depth-first preorder traversal in
child registration order: a visible node's descriptor is emitted before —
and immediately followed by — the descriptors of its subtree, children
being traversed in registration order; a hidden node and its entire
subtree contribute no descriptors, wherever the node sits among its
siblings; the root node contributes no descriptor of its own (its name,
hidden marker, flags and handler are irrelevant) but its children are
traversed with an empty path prefix.  Discovery is a pure function of the
tree, so the descriptor order is the same on every run for the same
registration order. -/
theorem c5_discovery_preorder :
    (∀ (c : Cmd) (path : List String), c.hidden = false →
      traverseCommands c path =
        descriptorOf c path :: traverseList c.children (path ++ [c.name]))
    ∧ (∀ (pre post : List Cmd) (c : Cmd) (path : List String), c.hidden = true →
      traverseList (pre ++ c :: post) path = traverseList (pre ++ post) path)
    ∧ (∀ (n₁ n₂ : String) (h₁ h₂ : Bool) (s₁ s₂ u₁ u₂ l₁ l₂ : String)
        (f₁ f₂ : List FlagInfo) (k₁ k₂ : HandlerKind) (cs : List Cmd),
      getAllCommands (.node n₁ h₁ s₁ u₁ l₁ f₁ k₁ cs) =
        getAllCommands (.node n₂ h₂ s₂ u₂ l₂ f₂ k₂ cs)
      ∧ getAllCommands (.node n₁ h₁ s₁ u₁ l₁ f₁ k₁ cs) = traverseList cs []) := by
  refine ⟨traverseCommands_visible, ?_, ?_⟩
  · intro pre post c path hc
    rw [traverseList_append, traverseList_append]
    have : traverseList (c :: post) path = traverseList post path := by
      simp [traverseList, traverseCommands_hidden c path hc]
    rw [this]
  · intro n₁ n₂ h₁ h₂ s₁ s₂ u₁ u₂ l₁ l₂ f₁ f₂ k₁ k₂ cs
    exact ⟨rfl, rfl⟩

theorem c5_discovery_preorder_witness :
    versionCmd.hidden = false
    ∧ traverseCommands versionCmd [] =
        descriptorOf versionCmd [] :: traverseList versionCmd.children ["version"]
    ∧ hiddenRunCmd.hidden = true
    ∧ traverseList [versionCmd, hiddenRunCmd, deleteCmd] [] =
        traverseList [versionCmd, deleteCmd] []
    ∧ getAllCommands testcliRoot =
        traverseList [versionCmd, hiddenRunCmd, deleteCmd] [] := by
  refine ⟨rfl, c5_discovery_preorder.1 versionCmd [] rfl, rfl, ?_, ?_⟩
  · exact c5_discovery_preorder.2.1 [versionCmd] [deleteCmd] hiddenRunCmd [] rfl
  · exact (c5_discovery_preorder.2.2 "testcli" "x" false true
      "Test CLI for output capture testing" "" "testcli" "" "" "" [] [] .runE .runE
      [versionCmd, hiddenRunCmd, deleteCmd]).2

/-! ## Claim C6: the hierarchical `resource` enum -/

/-- Claim C6: for every hierarchical tool, the `resource` parameter's enum
is duplicate-free and holds exactly the second path tokens discovered
under the action (in first-occurrence order by construction), and every
enum value, prefixed with its action, is a command path present in the
registry produced by discovery. -/
theorem c6_resource_enum (action : String) (root : Cmd) :
    (resourceEnum action root).Nodup
    ∧ (∀ r, r ∈ resourceEnum action root ↔
        ∃ info ∈ getAllCommands root,
          info.path.take 2 = [action, r] ∧ 2 ≤ info.path.length)
    ∧ (∀ r, r ∈ resourceEnum action root →
        [action, r] ∈ (getAllCommands root).map CommandInfo.path) := by
  have hmem : ∀ r, r ∈ resourceEnum action root ↔
      ∃ info ∈ getAllCommands root,
        info.path.take 2 = [action, r] ∧ 2 ≤ info.path.length := by
    intro r
    rw [resourceEnum, getAvailableResources, mem_dedupKeepFirst,
      List.mem_filterMap]
    constructor
    · rintro ⟨info, hinfo, hsome⟩
      exact ⟨info, hinfo, (secondTokenUnder_eq_some action r info).1 hsome⟩
    · rintro ⟨info, hinfo, hcond⟩
      exact ⟨info, hinfo, (secondTokenUnder_eq_some action r info).2 hcond⟩
  refine ⟨nodup_dedupKeepFirst _, hmem, ?_⟩
  intro r hr
  obtain ⟨info, hinfo, htake, hlen⟩ := (hmem r).1 hr
  have hmemp : info.path ∈ (traverseList root.children []).map CommandInfo.path :=
    List.mem_map_of_mem _ hinfo
  have hclosed := take_closed_list root.children [] info.path 2 hmemp (by decide) hlen
  rw [htake] at hclosed
  exact hclosed

theorem c6_resource_enum_witness :
    "cluster" ∈ resourceEnum "create" advancedRoot
    ∧ ["create", "cluster"] ∈ (getAllCommands advancedRoot).map CommandInfo.path := by
  have hr : "cluster" ∈ resourceEnum "create" advancedRoot := by decide
  exact ⟨hr, (c6_resource_enum "create" advancedRoot).2.2 "cluster" hr⟩

/-! ## Claim C1: exhaustive flag validation in the dispatcher -/

theorem lexLE_total : ∀ xs ys : List Nat, lexLE xs ys = true ∨ lexLE ys xs = true
  | [], _ => Or.inl rfl
  | _ :: _, [] => Or.inr rfl
  | x :: xs, y :: ys => by
    unfold lexLE
    rcases Nat.lt_trichotomy x y with h | h | h
    · left
      rw [if_pos h]
    · subst h
      rw [if_neg (lt_irrefl x), if_neg (lt_irrefl x), if_neg (lt_irrefl x),
        if_neg (lt_irrefl x)]
      exact lexLE_total xs ys
    · right
      rw [if_pos h]

theorem lexLE_trans : ∀ xs ys zs : List Nat,
    lexLE xs ys = true → lexLE ys zs = true → lexLE xs zs = true
  | [], _, _, _, _ => rfl
  | _ :: _, [], _, h, _ => by simp [lexLE] at h
  | _ :: _, _ :: _, [], _, h => by simp [lexLE] at h
  | x :: xs, y :: ys, z :: zs, h1, h2 => by
    unfold lexLE at h1 h2 ⊢
    by_cases hxy : x < y
    · by_cases hyz : y < z
      · rw [if_pos (lt_trans hxy hyz)]
      · by_cases hzy : z < y
        · rw [if_neg hyz, if_pos hzy] at h2
          exact absurd h2 (by simp)
        · have hyzeq : y = z := le_antisymm (not_lt.1 hzy) (not_lt.1 hyz)
          subst hyzeq
          rw [if_pos hxy]
    · by_cases hyx : y < x
      · rw [if_neg hxy, if_pos hyx] at h1
        exact absurd h1 (by simp)
      · have hxyeq : x = y := le_antisymm (not_lt.1 hyx) (not_lt.1 hxy)
        subst hxyeq
        rw [if_neg hxy, if_neg hxy] at h1
        by_cases hyz : x < z
        · rw [if_pos hyz]
        · by_cases hzy : z < x
          · rw [if_neg hyz, if_pos hzy] at h2
            exact absurd h2 (by simp)
          · rw [if_neg hyz, if_neg hzy] at h2 ⊢
            exact lexLE_trans xs ys zs h1 h2

instance : IsTotal DispatchError errLE :=
  ⟨fun a b => lexLE_total (nameKey a.flagName) (nameKey b.flagName)⟩

instance : IsTrans DispatchError errLE :=
  ⟨fun _ _ _ hab hbc => lexLE_trans _ _ _ hab hbc⟩

theorem mem_unknownFlagErrors (cmdFlags : List FlagInfo)
    (supplied : List (String × String)) (e : DispatchError) :
    e ∈ unknownFlagErrors cmdFlags supplied ↔
      ∃ n, e = .unknownFlag n ∧ n ∈ supplied.map Prod.fst ∧
        ∀ f ∈ cmdFlags, f.name ≠ n := by
  simp only [unknownFlagErrors, List.mem_map, List.mem_filter, Bool.not_eq_true',
    List.any_eq_false, beq_iff_eq, ne_eq]
  constructor
  · rintro ⟨n, ⟨hmem, hall⟩, rfl⟩
    exact ⟨n, rfl, hmem, hall⟩
  · rintro ⟨n, rfl, hmem, hall⟩
    exact ⟨n, ⟨hmem, hall⟩, rfl⟩

theorem mem_missingRequiredFlagErrors (cmdFlags : List FlagInfo)
    (supplied : List (String × String)) (e : DispatchError) :
    e ∈ missingRequiredFlagErrors cmdFlags supplied ↔
      ∃ n, e = .missingRequiredFlag n ∧
        (∃ f ∈ cmdFlags, f.required = true ∧ f.name = n) ∧
        ∀ s ∈ supplied, s.1 ≠ n := by
  simp only [missingRequiredFlagErrors, List.mem_map, List.mem_filter,
    Bool.not_eq_true', List.any_eq_false, beq_iff_eq, ne_eq]
  constructor
  · rintro ⟨n, ⟨⟨f, ⟨hf, hreq⟩, rfl⟩, hall⟩, rfl⟩
    exact ⟨f.name, rfl, ⟨f, hf, hreq, rfl⟩, hall⟩
  · rintro ⟨n, rfl, ⟨f, hf, hreq, rfl⟩, hall⟩
    exact ⟨f.name, ⟨⟨f, ⟨hf, hreq⟩, rfl⟩, hall⟩, rfl⟩

theorem mem_validateFlags (cmdFlags : List FlagInfo)
    (supplied : List (String × String)) (e : DispatchError) :
    e ∈ validateFlags cmdFlags supplied ↔
      e ∈ unknownFlagErrors cmdFlags supplied ∨
        e ∈ missingRequiredFlagErrors cmdFlags supplied := by
  rw [validateFlags, (List.perm_insertionSort errLE _).mem_iff, List.mem_append]

/-- Claim C1: for every dispatched tool call, the accumulated validation
errors are exactly the `UnknownFlag` errors (one per supplied flag name
not in the resolved command's flag set) and the `MissingRequiredFlag`
errors (one per flag marked required on the resolved command and absent
from the supplied flags), sorted lexically by flag name; if any error
accumulated, the dispatcher returns them and the command handler is never
invoked (no flag mutation, no output); invocation proceeds exactly when
validation finds no errors. -/
theorem c1_flag_validation (cmdPath : List String) (cmdFlags : List FlagInfo)
    (supplied : List (String × String)) :
    List.Sorted errLE (validateFlags cmdFlags supplied)
    ∧ (∀ e, e ∈ validateFlags cmdFlags supplied ↔
        (∃ n, e = .unknownFlag n ∧ n ∈ supplied.map Prod.fst ∧
          ∀ f ∈ cmdFlags, f.name ≠ n)
        ∨ (∃ n, e = .missingRequiredFlag n ∧
            (∃ f ∈ cmdFlags, f.required = true ∧ f.name = n) ∧
            ∀ s ∈ supplied, s.1 ≠ n))
    ∧ (validateFlags cmdFlags supplied ≠ [] →
        dispatchFlags cmdPath cmdFlags supplied = .error (validateFlags cmdFlags supplied)
        ∧ ∀ inv : Invocation, dispatchFlags cmdPath cmdFlags supplied ≠ .ok inv)
    ∧ (validateFlags cmdFlags supplied = [] →
        ∃ inv : Invocation, dispatchFlags cmdPath cmdFlags supplied = .ok inv) := by
  refine ⟨List.sorted_insertionSort errLE _, ?_, ?_, ?_⟩
  · intro e
    rw [mem_validateFlags, mem_unknownFlagErrors, mem_missingRequiredFlagErrors]
  · intro hne
    have hempty : (validateFlags cmdFlags supplied).isEmpty = false := by
      cases hv : validateFlags cmdFlags supplied with
      | nil => exact absurd hv hne
      | cons a l => rfl
    constructor
    · rw [dispatchFlags]
      simp only [hempty, Bool.false_eq_true, if_false]
    · intro inv
      rw [dispatchFlags]
      simp only [hempty, Bool.false_eq_true, if_false]
      exact fun h => Except.noConfusion h
  · intro hv
    refine ⟨{ appliedFlags := supplied.filter (fun s => cmdFlags.any (fun f => f.name == s.1))
              commandPath := cmdPath }, ?_⟩
    rw [dispatchFlags]
    simp only [hv, List.isEmpty_nil, if_true]

theorem c1_flag_validation_witness :
    validateFlags advCreateCluster.flags [("name", "x")] =
      [.missingRequiredFlag "region", .missingRequiredFlag "size"]
    ∧ dispatchFlags ["create", "cluster"] advCreateCluster.flags [("name", "x")] =
        .error [.missingRequiredFlag "region", .missingRequiredFlag "size"]
    ∧ ∀ inv : Invocation,
        dispatchFlags ["create", "cluster"] advCreateCluster.flags [("name", "x")] ≠ .ok inv := by
  have hval : validateFlags advCreateCluster.flags [("name", "x")] =
      [.missingRequiredFlag "region", .missingRequiredFlag "size"] := by decide
  have h := (c1_flag_validation ["create", "cluster"] advCreateCluster.flags
    [("name", "x")]).2.2.1 (by rw [hval]; exact fun hc => List.noConfusion hc)
  refine ⟨hval, ?_, h.2⟩
  rw [h.1, hval]

/-! ## Claim C2: schema-required flags -/

/-- Claim C2: the generated hierarchical tool's flags schema marks no
flag as required (required-ness is enforced dynamically at dispatch time),
while a standalone command's tool marks exactly the command's required
flags as schema-required. -/
theorem c2_schema_required (action : String) (root : Cmd) (info : CommandInfo) :
    (createHierarchicalTool action root).flagsRequired = []
    ∧ (∀ n, n ∈ (createStandaloneTool info).flagsRequired ↔
        ∃ f ∈ info.flags, f.required = true ∧ f.name = n) := by
  refine ⟨rfl, fun n => ?_⟩
  simp only [createStandaloneTool, List.mem_map, List.mem_filter]
  constructor
  · rintro ⟨f, ⟨hf, hreq⟩, rfl⟩
    exact ⟨f, hf, hreq, rfl⟩
  · rintro ⟨f, hf, hreq, rfl⟩
    exact ⟨f, ⟨hf, hreq⟩, rfl⟩

theorem c2_schema_required_witness :
    (createHierarchicalTool "create" advancedRoot).flagsRequired = []
    ∧ "name" ∈ (createStandaloneTool (descriptorOf deleteResourceCmd ["delete"])).flagsRequired := by
  have h := c2_schema_required "create" advancedRoot (descriptorOf deleteResourceCmd ["delete"])
  exact ⟨h.1, (h.2 "name").2 ⟨nameFlag, by decide, rfl, rfl⟩⟩

/-! ## Claim C3: auto-mode execution routing -/

/-- Claim C3: in auto execution mode, every call that resolves to a
command whose handler can only terminate unilaterally (`Run:` with no
`RunE:`) is routed to the subprocess invoker, and every call that
resolves to a command whose handler can report errors (`RunE:`) is routed
to the in-process invoker. -/
theorem c3_auto_mode_routing (root : Cmd) (path : List String) (c : Cmd)
    (_hfind : findCommand root path = some c) :
    (c.handler = .runOnly → routeExecution .auto c = .spawn)
    ∧ (c.handler = .runE → routeExecution .auto c = .direct) := by
  constructor
  · intro h
    simp [routeExecution, shouldUseSubProcess, h]
  · intro h
    simp [routeExecution, shouldUseSubProcess, h]

theorem c3_auto_mode_routing_witness :
    findCommand runDetectRoot ["run-command"] = some runOnlyCmd
    ∧ runOnlyCmd.handler = .runOnly
    ∧ routeExecution .auto runOnlyCmd = .spawn
    ∧ findCommand runDetectRoot ["rune-command"] = some runECmd
    ∧ runECmd.handler = .runE
    ∧ routeExecution .auto runECmd = .direct := by
  have h1 : findCommand runDetectRoot ["run-command"] = some runOnlyCmd := rfl
  have h2 : findCommand runDetectRoot ["rune-command"] = some runECmd := rfl
  exact ⟨h1, rfl, (c3_auto_mode_routing runDetectRoot ["run-command"] runOnlyCmd h1).1 rfl,
    h2, rfl, (c3_auto_mode_routing runDetectRoot ["rune-command"] runECmd h2).2 rfl⟩

/-! ## Claim C4: output merge order -/

theorem runWrites_interleaves (ss ds : List String) (es : List WriteEvent)
    (h : Interleaves ss ds es) :
    ∀ a b : List String, runWrites es (a, b) = (a ++ ss, b ++ ds) := by
  induction h with
  | nil =>
    intro a b
    simp [runWrites]
  | structured s h ih =>
    intro a b
    rw [show runWrites (.structured s :: _) (a, b) = runWrites _ (a ++ [s], b) from rfl, ih]
    simp
  | direct d h ih =>
    intro a b
    rw [show runWrites (.direct d :: _) (a, b) = runWrites _ (a, b ++ [d]) from rfl, ih]
    simp

/-- Claim C4: for every in-process invocation whose handler writes via
both the structured output writer and the intercepted standard-output
stream, the captured stdout is exactly the structured-writer buffer
content followed by the intercepted-stream buffer content, independent of
the temporal interleaving of the writes: every interleaving of the same
two write sequences yields the same captured stdout. -/
theorem c4_output_ordering (ss ds : List String) (es : List WriteEvent)
    (h : Interleaves ss ds es) :
    capturedStdout es = String.join (ss ++ ds)
    ∧ ∀ (stderrBuf : String) (handlerErr : Option String),
        (executeInProcess es stderrBuf handlerErr).stdout = String.join (ss ++ ds) := by
  have hrun : runWrites es ([], []) = (ss, ds) := by
    rw [runWrites_interleaves ss ds es h [] []]
    simp
  have hcap : capturedStdout es = String.join (ss ++ ds) := by
    rw [capturedStdout, hrun]
  exact ⟨hcap, fun _ _ => hcap⟩

theorem c4_output_ordering_witness :
    Interleaves
      ["OUTPUT_METHOD:mixed-1-cmd.Println\n", "OUTPUT_METHOD:mixed-3-cmd.Printf\n"]
      ["OUTPUT_METHOD:mixed-2-fmt.Println\n", "OUTPUT_METHOD:mixed-4-fmt.Printf\n",
       "OUTPUT_METHOD:mixed-5-os.Stdout.Write\n"]
      [.structured "OUTPUT_METHOD:mixed-1-cmd.Println\n",
       .direct "OUTPUT_METHOD:mixed-2-fmt.Println\n",
       .structured "OUTPUT_METHOD:mixed-3-cmd.Printf\n",
       .direct "OUTPUT_METHOD:mixed-4-fmt.Printf\n",
       .direct "OUTPUT_METHOD:mixed-5-os.Stdout.Write\n"]
    ∧ capturedStdout
      [.structured "OUTPUT_METHOD:mixed-1-cmd.Println\n",
       .direct "OUTPUT_METHOD:mixed-2-fmt.Println\n",
       .structured "OUTPUT_METHOD:mixed-3-cmd.Printf\n",
       .direct "OUTPUT_METHOD:mixed-4-fmt.Printf\n",
       .direct "OUTPUT_METHOD:mixed-5-os.Stdout.Write\n"] =
      String.join
        (["OUTPUT_METHOD:mixed-1-cmd.Println\n", "OUTPUT_METHOD:mixed-3-cmd.Printf\n"] ++
         ["OUTPUT_METHOD:mixed-2-fmt.Println\n", "OUTPUT_METHOD:mixed-4-fmt.Printf\n",
          "OUTPUT_METHOD:mixed-5-os.Stdout.Write\n"]) := by
  have hI : Interleaves
      ["OUTPUT_METHOD:mixed-1-cmd.Println\n", "OUTPUT_METHOD:mixed-3-cmd.Printf\n"]
      ["OUTPUT_METHOD:mixed-2-fmt.Println\n", "OUTPUT_METHOD:mixed-4-fmt.Printf\n",
       "OUTPUT_METHOD:mixed-5-os.Stdout.Write\n"]
      [.structured "OUTPUT_METHOD:mixed-1-cmd.Println\n",
       .direct "OUTPUT_METHOD:mixed-2-fmt.Println\n",
       .structured "OUTPUT_METHOD:mixed-3-cmd.Printf\n",
       .direct "OUTPUT_METHOD:mixed-4-fmt.Printf\n",
       .direct "OUTPUT_METHOD:mixed-5-os.Stdout.Write\n"] :=
    .structured _ (.direct _ (.structured _ (.direct _ (.direct _ .nil))))
  exact ⟨hI, (c4_output_ordering _ _ _ hI).1⟩

/-! ## Claim C9: the in-process exit code -/

/-- Claim C9: every in-process `Execute` result carries `ExitCode` 0 —
including when the handler reports an error; a handler failure is
surfaced only through the `Error` field, never through a nonzero exit
code on the in-process path. -/
theorem c9_inprocess_exit_code_zero (events : List WriteEvent)
    (stderrBuf : String) (handlerErr : Option String) :
    (executeInProcess events stderrBuf handlerErr).exitCode = 0
    ∧ (executeInProcess events stderrBuf handlerErr).error = handlerErr :=
  ⟨rfl, rfl⟩

/-! ## Claim C7: the tool catalog is built once and never regenerated -/

theorem handleRequest_state
    (parse : String → Except String (List (String × String)))
    (callTool : String → List (String × String) → Except String ToolCallRaw)
    (s : Server) (r : Request) :
    (handleRequest parse callTool s r).2 = s := by
  cases r <;> rfl

theorem runRequests_state
    (parse : String → Except String (List (String × String)))
    (callTool : String → List (String × String) → Except String ToolCallRaw) :
    ∀ (reqs : List Request) (s : Server), runRequests parse callTool s reqs = s
  | [], s => rfl
  | r :: rest, s => by
    have h1 : runRequests parse callTool s (r :: rest) =
        runRequests parse callTool (handleRequest parse callTool s r).2 rest := rfl
    rw [h1, handleRequest_state, runRequests_state parse callTool rest s]

/-- Claim C7: for a fixed command tree and configuration, the tool catalog
is built once at server construction and never regenerated by request
handling: after serving any two request sequences, `ListTools` returns
the same ordered list of tool definitions — the catalog built at
construction. -/
theorem c7_list_tools_deterministic
    (parse : String → Except String (List (String × String)))
    (callTool : String → List (String × String) → Except String ToolCallRaw)
    (root : Cmd) (toolPrefix : String) (reqs₁ reqs₂ : List Request) :
    (handleRequest parse callTool
        (runRequests parse callTool (newServer root toolPrefix) reqs₁) .listTools).1
      = (handleRequest parse callTool
          (runRequests parse callTool (newServer root toolPrefix) reqs₂) .listTools).1
    ∧ (handleRequest parse callTool (newServer root toolPrefix) .listTools).1
      = .tools (getHierarchicalTools toolPrefix root) := by
  rw [runRequests_state, runRequests_state]
  exact ⟨rfl, rfl⟩

/-! ## Claim C8: no mutual exclusion between in-process calls -/

theorem reach_two_running :
    ExecReachable [CallPhase.notStarted, CallPhase.notStarted]
      [CallPhase.running, CallPhase.running] := by
  have s1 : ExecStep [.notStarted, .notStarted] [.streamsRedirected, .notStarted] :=
    ExecStep.advance [] [.notStarted] .notStarted (by simp)
  have s2 : ExecStep [.streamsRedirected, .notStarted] [.flagsApplied, .notStarted] :=
    ExecStep.advance [] [.notStarted] .streamsRedirected (by simp)
  have s3 : ExecStep [.flagsApplied, .notStarted] [.running, .notStarted] :=
    ExecStep.advance [] [.notStarted] .flagsApplied (by simp)
  have s4 : ExecStep [.running, .notStarted] [.running, .streamsRedirected] :=
    ExecStep.advance [.running] [] .notStarted (by simp)
  have s5 : ExecStep [.running, .streamsRedirected] [.running, .flagsApplied] :=
    ExecStep.advance [.running] [] .streamsRedirected (by simp)
  have s6 : ExecStep [.running, .flagsApplied] [.running, .running] :=
    ExecStep.advance [.running] [] .flagsApplied (by simp)
  exact .tail (.tail (.tail (.tail (.tail (.tail (.refl _) s1) s2) s3) s4) s5) s6

/-- Claim C8, counterexample: the claimed mutual-exclusion invariant is
false for the call machine of `Execute`: starting from two idle
in-process calls, a state in which both calls are simultaneously in the
InProcessRunning phase is reachable, because no transition of `Execute`
is guarded by the phase of any other call. -/
theorem c8_mutual_exclusion_counterexample :
    ¬ (∀ s, ExecReachable [CallPhase.notStarted, CallPhase.notStarted] s →
        atMostOneInProcessRunning s) := by
  intro hall
  have h := hall [CallPhase.running, CallPhase.running] reach_two_running
  have h2 : countRunning [CallPhase.running, CallPhase.running] = 2 := rfl
  unfold atMostOneInProcessRunning at h
  omega

/-- Claim C8 (amended): the `Execute` sequence (redirect streams → set
flags → invoke → restore) contains no mutual exclusion: from two idle
in-process calls the machine reaches a state in which two calls are
simultaneously in the InProcessRunning state, so in-process invocations
are not serialized by the execution router. -/
theorem c8_no_serialization :
    ∃ s, ExecReachable [CallPhase.notStarted, CallPhase.notStarted] s
      ∧ countRunning s = 2 :=
  ⟨[CallPhase.running, CallPhase.running], reach_two_running, rfl⟩

/-! ## Claim C10: `handleToolCall` never fails at the protocol layer -/

/-- Claim C10: `Server.handleToolCall` never returns a non-nil Go error to
the protocol layer: its error component is `nil` for every request, while
an argument-JSON parse failure and a tool-call failure are each converted
into a `CallToolResult` with `IsError` true and the error message as text
content. -/
theorem c10_handle_tool_call_total
    (parse : String → Except String (List (String × String)))
    (callTool : String → List (String × String) → Except String ToolCallRaw)
    (name : String) (rawArgs : Option String) :
    (handleToolCall parse callTool name rawArgs).2 = none
    ∧ (∀ e, parsedArgs parse rawArgs = .error e →
        (handleToolCall parse callTool name rawArgs).1 =
          { isError := true, content := ["Error parsing arguments: " ++ e] })
    ∧ (∀ args e, parsedArgs parse rawArgs = .ok args → callTool name args = .error e →
        (handleToolCall parse callTool name rawArgs).1 =
          { isError := true, content := ["Error calling tool: " ++ e] }) := by
  have hsnd : ∀ x : Except String ToolCallRaw, (convertCallResult x).2 = none := by
    intro x
    cases x <;> rfl
  have hok : ∀ args, parsedArgs parse rawArgs = .ok args →
      handleToolCall parse callTool name rawArgs = convertCallResult (callTool name args) := by
    intro args hp
    unfold handleToolCall
    rw [hp]
  refine ⟨?_, ?_, ?_⟩
  · cases hp : parsedArgs parse rawArgs with
    | error e =>
      unfold handleToolCall
      rw [hp]
    | ok args =>
      rw [hok args hp]
      exact hsnd _
  · intro e hp
    unfold handleToolCall
    rw [hp]
  · intro args e hp hc
    rw [hok args hp, hc]
    rfl

theorem c10_handle_tool_call_total_witness :
    (handleToolCall (fun _ => .error "unexpected end of JSON input")
        (fun _ _ => .error "unknown tool") "advanced_list" (some "not-json")).2 = none
    ∧ (handleToolCall (fun _ => .error "unexpected end of JSON input")
        (fun _ _ => .error "unknown tool") "advanced_list" (some "not-json")).1 =
      { isError := true
        content := ["Error parsing arguments: " ++ "unexpected end of JSON input"] } := by
  have h := c10_handle_tool_call_total (fun _ => .error "unexpected end of JSON input")
    (fun _ _ => .error "unknown tool") "advanced_list" (some "not-json")
  exact ⟨h.1, h.2.1 "unexpected end of JSON input" rfl⟩

end CobraMCP
